import Mathlib

/-!
Shallow embedding of the js-ipld IPLD resolver core: the content-identifier
data model, the codec/format registry with lazy dynamic loading, the block
service interface, the hop-by-hop path resolver, the lazy bulk accessors
(get / put / remove) and the recursive tree enumerator, translated from
`src/index.js` and its variant implementation.  Stateful JS code (mutated
closure variables of the pull-based iterators, the memoized registry, the
block store) is modelled by explicit state passing; fallible code returns
`Except`.
-/

/-- Raw serialized bytes of a block (JS `Buffer`). -/
abbrev Bytes := List Nat

/-- Errors: the JS code throws `Error` objects carrying a message string. -/
abbrev Err := String

/-- Content identifier as used by the `cids` JS library: version, codec
(held as its human-readable name string) and multihash bytes.  Value
equality is structural. -/
structure CID where
  version : Nat
  codec : String
  multihash : List Nat
deriving DecidableEq, Repr

/-- JS values as produced and consumed by format plugins: deserialized IPLD
nodes.  Objects are finite key/value field lists; a `cid` value is a `CID`
class instance (the only values for which `CID.isCID` is true). -/
inductive Value where
  | null : Value
  | bool (b : Bool) : Value
  | num (n : Int) : Value
  | str (s : String) : Value
  | cid (c : CID) : Value
  | obj (fields : List (String × Value)) : Value

/-- JS truthiness of a `Value` (`null`, `false`, `0` and `""` are falsy). -/
def truthy : Value → Bool
  | .null => false
  | .bool b => b
  | .num n => n != 0
  | .str s => s ≠ ""
  | .cid _ => true
  | .obj _ => true

/-- `CID.isCID(value)`: true exactly of CID class instances. -/
def isCID : Value → Bool
  | .cid _ => true
  | _ => false

/-- Property read `v[k]` on a value: defined field lookup for objects,
`undefined` (`none`) otherwise. -/
def objGet : Value → String → Option Value
  | .obj fields, k => (fields.find? (fun kv => kv.1 == k)).map (·.2)
  | _, _ => none

/-- A block: serialized bytes together with the CID addressing them
(JS `new Block(buf, cid)` has fields `data` and `cid`). -/
structure Block where
  cid : CID
  data : Bytes
deriving DecidableEq, Repr

/-- The block service state: a content-addressed store of blocks.  A JS
datastore keyed by CID is modelled as an association list where the most
recent entry for a key shadows older ones. -/
abbrev BS := List Block

/-- `bs.put(block)`: store a block under its CID (overwrite semantics via
shadowing). -/
def bsPut (bs : BS) (b : Block) : BS := b :: bs

/-- `bs.get(cid)`: fetch the block for a CID, `Not Found` error if absent. -/
def bsGet (bs : BS) (c : CID) : Except Err Block :=
  match bs.find? (fun b => b.cid == c) with
  | some b => .ok b
  | none => .error "Not Found"

/-- `bs.getMany(cids)`: batched fetch, all-or-nothing, preserving the order
of the requested CIDs. -/
def bsGetMany (bs : BS) : List CID → Except Err (List Block)
  | [] => .ok []
  | c :: cs =>
    match bsGet bs c with
    | .error e => .error e
    | .ok b =>
      match bsGetMany bs cs with
      | .error e => .error e
      | .ok bl => .ok (b :: bl)

/-- `bs.delete(cid)`: remove the blocks stored under a CID (the in-memory
datastore acknowledges deletes unconditionally). -/
def bsDelete (bs : BS) (c : CID) : Except Err BS :=
  .ok (bs.filter (fun b => !(b.cid == c)))

/-- Resolution result of one plugin `resolver.resolve` call: the part of the
path that was not consumed inside this block, and the value reached. -/
structure ResolveResult where
  remainderPath : String
  value : Value

/-- The `resolver` half of a format plugin (its local path resolution,
child enumeration and link classification capabilities).  `isLink` returns
the link value itself for links and the JS value `false` otherwise, so the
callers test its result for truthiness. -/
structure ResolverPlugin where
  multicodec : String
  resolve : Bytes → String → Except Err ResolveResult
  tree : Bytes → Except Err (List String)
  isLink : Bytes → String → Except Err Value

/-- Options as supplied by the caller of `put` (`userOptions`): the numeric
multicodec `format` is mandatory, the rest may be left `undefined`. -/
structure UserOptions where
  format : Nat
  hashAlg : Option Nat := none
  version : Option Nat := none
  onlyHash : Option Bool := none

/-- Options after `mergeOptions(defaultOptions, userOptions)`.  The default
`hashAlg` is `format.defaultHashAlg`, a field the registry entries
`{resolver, util}` do not carry, hence `undefined` unless the user set one;
`version` defaults to `1` and `onlyHash` to `false` (`mergeOptions` ignores
`undefined` user values). -/
structure PutOptions where
  format : Nat
  hashAlg : Option Nat
  version : Nat
  onlyHash : Bool

/-- The option merge performed lazily on the first pull of `put`. -/
def mkOptions (uo : UserOptions) : PutOptions :=
  { format := uo.format
    hashAlg := uo.hashAlg
    version := uo.version.getD 1
    onlyHash := uo.onlyHash.getD false }

/-- The `util` half of a format plugin: serialization, deserialization and
CID computation (`util.cid(node, options)`). -/
structure UtilPlugin where
  serialize : Value → Except Err Bytes
  deserialize : Bytes → Except Err Value
  cid : Value → PutOptions → Except Err CID

/-- A registry entry as stored by `support.add` / `addFormat`:
`{resolver: resolver, util: util}`. -/
structure FormatEntry where
  resolver : ResolverPlugin
  util : UtilPlugin

/-- The resolver instance's `this.resolvers` object: codec name → format
entry.  A JS object keyed by codec is modelled as an association list where
a prepended entry shadows older ones under first-match lookup. -/
abbrev Registry := List (String × FormatEntry)

/-- Read `this.resolvers[codec]` (`undefined` when absent). -/
def lookupR (reg : Registry) (codec : String) : Option FormatEntry :=
  (reg.find? (fun kv => kv.1 == codec)).map (·.2)

/-- Assign `this.resolvers[codec] = entry` (overwrite by shadowing). -/
def insertR (reg : Registry) (codec : String) (e : FormatEntry) : Registry :=
  (codec, e) :: reg

/-- The message of the error thrown on a duplicate format registration. -/
def duplicateMsg (codec : String) : Err :=
  "Resolver already exists for codec \"" ++ codec ++ "\""

/-- `support.add(multicodec, resolver, util)` / `addFormat(format)`: fails
if an entry already exists for the codec, otherwise inserts the new entry.
A JS `throw` is an `error` result; the assignment only happens on the
non-throwing path. -/
def supportAdd (reg : Registry) (codec : String) (resolver : ResolverPlugin)
    (util : UtilPlugin) : Except Err Registry :=
  match lookupR reg codec with
  | some _ => .error (duplicateMsg codec)
  | none => .ok (insertR reg codec ⟨resolver, util⟩)

/-- The registry state after a `support.add` call, whether it threw or not:
JS `throw` happens before the assignment, so a failing call leaves
`this.resolvers` untouched. -/
def supportAddState (reg : Registry) (codec : String) (resolver : ResolverPlugin)
    (util : UtilPlugin) : Registry :=
  match supportAdd reg codec resolver util with
  | .ok reg1 => reg1
  | .error _ => reg

/-- `support.rm(multicodec)` / `removeFormat(codec)`: delete the entry if
present, no-op otherwise. -/
def supportRm (reg : Registry) (codec : String) : Registry :=
  reg.filter (fun kv => !(kv.1 == codec))

/-- The message of the error thrown by the default dynamic format loader. -/
def unknownCodecMsg (codec : String) : Err :=
  "No resolver found for codec \"" ++ codec ++ "\""

/-- The default `loadFormat` installed when the constructor receives none:
it always fails, naming the codec by its human-readable name. -/
def defaultLoadFormat (codec : String) : Except Err FormatEntry :=
  .error (unknownCodecMsg codec)

/-- External collaborators injected into the resolver: the dynamic format
loader (`options.loadFormat`), CID parsing from an encoded link value
(`new CID(...)` of the `cids` library), and the numeric-multicodec to
codec-name mapping (`multicodec.getCodec` over the hex varint, as done at
the top of `put`). -/
structure Env where
  loadFormat : String → Except Err FormatEntry
  parseCID : Value → CID
  codecName : Nat → String

/-- `_getFormat(codec)`: return the registered entry, or invoke the dynamic
loader on a miss and memoize its result into the registry. -/
def getFormat (env : Env) (reg : Registry) (codec : String) :
    Except Err (FormatEntry × Registry) :=
  match lookupR reg codec with
  | some f => .ok (f, reg)
  | none =>
    match env.loadFormat codec with
    | .error e => .error e
    | .ok f => .ok (f, insertR reg codec f)

/-- The legacy single-field `/` link normalization performed inside each
`resolve` step: `Object.keys(value).length === 1 && '/' in value` holds
exactly of an object with the single field `/`; such a value is replaced by
`new CID(value['/'])`. -/
def normalizeLegacy (env : Env) (v : Value) : Value :=
  match v with
  | .obj [(k, inner)] => if k == "/" then .cid (env.parseCID inner) else v
  | _ => v

/-- The mutable closure state of the iterator returned by `resolve`: the
instance's registry, the pending `cid` (`none` once there is no CID to
follow anymore) and the remaining `path`. -/
structure ResolveSt where
  reg : Registry
  cid : Option CID
  path : String

/-- One pull of the `resolve` iterator: end of sequence when no CID is
pending; otherwise look up the format for the pending CID's codec, fetch
its block, let the plugin resolve the remaining path inside it, normalize a
legacy link, and keep the value as the pending CID for the next step
exactly when it is a CID. -/
def resolveNext (env : Env) (bs : BS) (st : ResolveSt) :
    Except Err (Option (ResolveResult × ResolveSt)) :=
  match st.cid with
  | none => .ok none
  | some c =>
    match getFormat env st.reg c.codec with
    | .error e => .error e
    | .ok (format, reg1) =>
      match bsGet bs c with
      | .error e => .error e
      | .ok block =>
        match format.resolver.resolve block.data st.path with
        | .error e => .error e
        | .ok result =>
          let value := normalizeLegacy env result.value
          let nextCid : Option CID :=
            match value with
            | .cid c2 => some c2
            | _ => none
          .ok (some (⟨result.remainderPath, value⟩,
                     ⟨reg1, nextCid, result.remainderPath⟩))

/-- `_deserialize(block)`: look up the format for the block's own codec and
deserialize its bytes. -/
def deserializeBlock (env : Env) (reg : Registry) (block : Block) :
    Except Err (Value × Registry) :=
  match getFormat env reg block.cid.codec with
  | .error e => .error e
  | .ok (format, reg1) =>
    match format.util.deserialize block.data with
    | .error e => .error e
    | .ok node => .ok (node, reg1)

/-- The mutable closure state of the iterator returned by `get`: the
registry, the caller-supplied `cids` argument (never written to), and the
lazily fetched internal `blocks` array (`none` until the first pull). -/
structure GetSt where
  reg : Registry
  cids : List CID
  blocks : Option (List Block)

/-- Shift the next block off the internal array and deserialize it. -/
def getShift (env : Env) (st : GetSt) (block : Block) (rest : List Block) :
    GetSt × Except Err (Option Value) :=
  match deserializeBlock env st.reg block with
  | .error e => ({ st with blocks := some rest }, .error e)
  | .ok (node, reg1) => ({ st with reg := reg1, blocks := some rest }, .ok (some node))

/-- One pull of the `get` iterator: done when the caller passed no CIDs or
the internal blocks array is exhausted; on the first pull issue the single
batched `bs.getMany` read, then deserialize blocks one at a time in input
order. -/
def getNext (env : Env) (bs : BS) (st : GetSt) : GetSt × Except Err (Option Value) :=
  if st.cids.isEmpty || (match st.blocks with
                         | some bl => bl.isEmpty
                         | none => false) then
    (st, .ok none)
  else
    match st.blocks with
    | none =>
      match bsGetMany bs st.cids with
      | .error e => (st, .error e)
      | .ok [] => ({ st with blocks := some [] }, .error "Not Found")
      | .ok (block :: rest) => getShift env st block rest
    | some [] => (st, .ok none)
    | some (block :: rest) => getShift env st block rest

/-- `_put(cid, node)`: look up the format for the CID's codec, serialize the
node and store the resulting block, acknowledging with the same CID. -/
def putBlock (env : Env) (reg : Registry) (bs : BS) (c : CID) (node : Value) :
    Except Err (CID × Registry × BS) :=
  match getFormat env reg c.codec with
  | .error e => .error e
  | .ok (format, reg1) =>
    match format.util.serialize node with
    | .error e => .error e
    | .ok buf => .ok (c, reg1, bsPut bs ⟨c, buf⟩)

/-- The mutable closure state of the iterator returned by `put`: the
registry, the block store, the caller-supplied `nodes` array (shifted on
each pull) and the lazily resolved merged options and format. -/
structure PutSt where
  reg : Registry
  bs : BS
  nodes : List Value
  opts : Option (PutOptions × FormatEntry)

/-- One pull of the `put` iterator: done when there are no more nodes; on
the first pull translate the numeric format option to a codec name, look
the format up and merge the options; then shift the next node, compute its
CID via the plugin, and either yield it directly (`onlyHash`) or persist
the serialized block first. -/
def putNext (env : Env) (uo : UserOptions) (st : PutSt) :
    PutSt × Except Err (Option CID) :=
  match st.nodes with
  | [] => (st, .ok none)
  | node :: rest =>
    match (match st.opts with
           | some optsFormat => .ok (optsFormat, st.reg)
           | none =>
             match getFormat env st.reg (env.codecName uo.format) with
             | .error e => .error e
             | .ok (format, reg1) => .ok ((mkOptions uo, format), reg1) :
           Except Err ((PutOptions × FormatEntry) × Registry)) with
    | .error e => (st, .error e)
    | .ok ((opts, format), reg1) =>
      let st1 : PutSt :=
        { st with reg := reg1, nodes := rest, opts := some (opts, format) }
      match format.util.cid node opts with
      | .error e => (st1, .error e)
      | .ok c =>
        if opts.onlyHash then (st1, .ok (some c))
        else
          match putBlock env st1.reg st1.bs c node with
          | .error e => (st1, .error e)
          | .ok (c2, reg2, bs2) => ({ st1 with reg := reg2, bs := bs2 }, .ok (some c2))

/-- The mutable closure state of the iterator returned by `remove`: the
block store and the caller-supplied `cids` array (shifted on each pull). -/
structure RemoveSt where
  bs : BS
  cids : List CID

/-- One pull of the `remove` iterator: done when no CIDs remain; otherwise
shift the next CID, delete its block, and yield the CID once deleted. -/
def removeNext (st : RemoveSt) : RemoveSt × Except Err (Option CID) :=
  match st.cids with
  | [] => (st, .ok none)
  | c :: rest =>
    let st1 : RemoveSt := { st with cids := rest }
    match bsDelete st1.bs c with
    | .error e => (st1, .error e)
    | .ok bs1 => ({ st1 with bs := bs1 }, .ok (some c))

/-- Pull the `put` iterator up to `fuel` times, collecting yielded CIDs in
order and stopping at end-of-sequence or on the first failed pull. -/
def runPutAux (env : Env) (uo : UserOptions) :
    Nat → PutSt → PutSt × Except Err (List CID)
  | 0, st => (st, .ok [])
  | fuel + 1, st =>
    match putNext env uo st with
    | (st1, .error e) => (st1, .error e)
    | (st1, .ok none) => (st1, .ok [])
    | (st1, .ok (some c)) =>
      match runPutAux env uo fuel st1 with
      | (st2, .error e) => (st2, .error e)
      | (st2, .ok cs) => (st2, .ok (c :: cs))

/-- Pull the `get` iterator up to `fuel` times, collecting yielded nodes. -/
def runGetAux (env : Env) (bs : BS) :
    Nat → GetSt → GetSt × Except Err (List Value)
  | 0, st => (st, .ok [])
  | fuel + 1, st =>
    match getNext env bs st with
    | (st1, .error e) => (st1, .error e)
    | (st1, .ok none) => (st1, .ok [])
    | (st1, .ok (some v)) =>
      match runGetAux env bs fuel st1 with
      | (st2, .error e) => (st2, .error e)
      | (st2, .ok vs) => (st2, .ok (v :: vs))

/-- Pull the `remove` iterator up to `fuel` times, collecting yielded CIDs. -/
def runRemoveAux : Nat → RemoveSt → RemoveSt × Except Err (List CID)
  | 0, st => (st, .ok [])
  | fuel + 1, st =>
    match removeNext st with
    | (st1, .error e) => (st1, .error e)
    | (st1, .ok none) => (st1, .ok [])
    | (st1, .ok (some c)) =>
      match runRemoveAux fuel st1 with
      | (st2, .error e) => (st2, .error e)
      | (st2, .ok cs) => (st2, .ok (c :: cs))

/-- `_maybeCID(link)`: a CID instance is returned as-is; a truthy value with
a defined `/` property is parsed into a CID; anything else is `null`. -/
def maybeCID (env : Env) (link : Value) : Option CID :=
  match link with
  | .cid c => some c
  | v => if truthy v then (objGet v "/").map env.parseCID else none

/-- An element of the breadth-first tree traversal: either a finished
relative path string (a non-link child) or a frontier element
`{basePath, cid}` whose block is still to be expanded (`basePath` is `null`
for the root seed, and `cid` is `null` when `_maybeCID` failed). -/
inductive TreeEl where
  | str (s : String)
  | node (basePath : Option String) (cid : Option CID)

/-- `el.basePath ? el.basePath + '/' + p.path : p.path` (JS truthiness:
`null` and the empty string select the bare child path). -/
def childBase (bp : Option String) (p : String) : String :=
  match bp with
  | some b => if b == "" then p else b ++ "/" ++ p
  | none => p

/-- Expand one traversal element: strings have no children; a frontier
element's block is fetched, its child paths enumerated and classified via
`isLink`, yielding finished strings for non-links and new frontier elements
for links. -/
def childrenOf (env : Env) (bs : BS) (reg : Registry) (el : TreeEl) :
    Except Err (List TreeEl × Registry) :=
  match el with
  | .str _ => .ok ([], reg)
  | .node _ none => .error "Cannot read codec of null"
  | .node bp (some c) =>
    match getFormat env reg c.codec with
    | .error e => .error e
    | .ok (format, reg1) =>
      match bsGet bs c with
      | .error e => .error e
      | .ok block =>
        match format.resolver.tree block.data with
        | .error e => .error e
        | .ok paths =>
          match paths.mapM (fun p =>
              (format.resolver.isLink block.data p).map (fun l => (p, l))) with
          | .error e => .error e
          | .ok withLinks =>
            .ok (withLinks.map (fun pl =>
                   let base := childBase bp pl.1
                   if truthy pl.2 then TreeEl.node (some base) (maybeCID env pl.2)
                   else TreeEl.str base),
                 reg1)

/-- `pullTraverse.widthFirst`: breadth-first traversal emitting every
visited element in queue order, with a fuel bound standing in for the
unbounded JS recursion (cyclic graphs make the real traversal diverge). -/
def bfs (env : Env) (bs : BS) : Nat → Registry → List TreeEl → Except Err (List TreeEl)
  | _, _, [] => .ok []
  | 0, _, _ :: _ => .error "traversal fuel exhausted"
  | fuel + 1, reg, el :: rest =>
    match childrenOf env bs reg el with
    | .error e => .error e
    | .ok (children, reg1) =>
      match bfs env bs fuel reg1 (rest ++ children) with
      | .error e => .error e
      | .ok tail => .ok (el :: tail)

/-- The `pull.map` + `pull.filter(Boolean)` stage after the traversal:
strings pass through, frontier elements contribute their `basePath`, and
falsy values (`null` base of the root, empty strings) are dropped. -/
def elToPath : TreeEl → Option String
  | .str s => if s == "" then none else some s
  | .node bp _ =>
    match bp with
    | some b => if b == "" then none else some b
    | none => none

/-- JS `el.indexOf(x) === 0`: `x` occurs at position 0, i.e. is a prefix. -/
def jsStartsWith (el x : String) : Bool := x.data.isPrefixOf el.data

/-- JS `el.slice(n)`: the string with its first `n` characters removed
(empty when `n` exceeds the length). -/
def jsSlice (el : String) (n : Nat) : String := String.mk (el.data.drop n)

/-- `treeStream(cid, path, options)`: non-recursive mode asks the root's
plugin for its immediate child paths; recursive mode runs the breadth-first
expansion; the `if (path)` truthiness check applies the optional path
filter only for a non-empty filter string, keeping entries that start with
the filter, emitting them with `path.length + 1` leading characters removed
and dropping entries that become empty. -/
def treeStream (env : Env) (bs : BS) (reg : Registry) (fuel : Nat) (c : CID)
    (path : Option String) (recursive : Bool) : Except Err (List String) :=
  match (if recursive then
           match bfs env bs fuel reg [.node none (some c)] with
           | .error e => .error e
           | .ok els => .ok (els.filterMap elToPath)
         else
           match getFormat env reg c.codec with
           | .error e => .error e
           | .ok (format, _) =>
             match bsGet bs c with
             | .error e => .error e
             | .ok block => format.resolver.tree block.data :
         Except Err (List String)) with
  | .error e => .error e
  | .ok entries =>
    match path with
    | none => .ok entries
    | some x =>
      if x == "" then .ok entries
      else
        .ok (entries.filterMap (fun el =>
          if jsStartsWith el x then
            (if jsSlice el (x.length + 1) == "" then none
             else some (jsSlice el (x.length + 1)))
          else none))

/-!
Concrete fixtures: a toy format plugin world on which the theorems below
are exercised at specific inputs.
-/

/-- A CID under the toy codec `fmt`. -/
def cidA : CID := ⟨1, "fmt", [1]⟩

/-- A second CID under the toy codec `fmt`. -/
def cidB : CID := ⟨1, "fmt", [2]⟩

/-- A CID whose codec `unk` has no registered or loadable format. -/
def cidU : CID := ⟨1, "unk", [3]⟩

/-- Toy serialization: strings become their character codes. -/
def encodeW : Value → Bytes
  | .str s => s.data.map Char.toNat
  | _ => []

/-- Toy deserialization: bytes become the string of their characters. -/
def decodeW (b : Bytes) : Value := .str (String.mk (b.map Char.ofNat))

/-- Toy resolver plugin: path `one/x` leads to a link to `cidB`, path `leg`
to a legacy `/`-object link, anything else to a terminal string, and every
block enumerates the single non-link child path `xyz`. -/
def resolverW : ResolverPlugin :=
  { multicodec := "fmt"
    resolve := fun _ p =>
      if p == "one/x" then .ok ⟨"x", .cid cidB⟩
      else if p == "leg" then .ok ⟨"", .obj [("/", .str "enc")]⟩
      else .ok ⟨"", .str "I am 1"⟩
    tree := fun _ => .ok ["xyz"]
    isLink := fun _ _ => .ok (.bool false) }

/-- Toy util plugin over `encodeW`/`decodeW`; every CID computation yields
`cidA`. -/
def utilW : UtilPlugin :=
  { serialize := fun v => .ok (encodeW v)
    deserialize := fun b => .ok (decodeW b)
    cid := fun _ _ => .ok cidA }

/-- The toy format entry. -/
def fmtW : FormatEntry := ⟨resolverW, utilW⟩

/-- A registry holding only the toy format under codec `fmt`. -/
def regW : Registry := [("fmt", fmtW)]

/-- Toy environment: default (always-failing) dynamic loader, a CID parser
sending the encoded link `enc` to `cidB`, and every numeric multicodec
naming the toy codec `fmt`. -/
def envW : Env :=
  { loadFormat := defaultLoadFormat
    parseCID := fun v => match v with | .str "enc" => cidB | _ => cidA
    codecName := fun _ => "fmt" }

/-- Toy environment whose numeric multicodecs all name the unknown codec. -/
def envU : Env :=
  { loadFormat := defaultLoadFormat
    parseCID := fun _ => cidA
    codecName := fun _ => "unk" }

/-- The block stored under `cidA`. -/
def blockA : Block := ⟨cidA, [0]⟩

/-- The block stored under `cidB`. -/
def blockB : Block := ⟨cidB, [1]⟩

/-- The block stored under `cidU` (bytes of an unknown codec). -/
def blockU : Block := ⟨cidU, [7]⟩

/-- The toy block store. -/
def bsW : BS := [blockA, blockB, blockU]

/-- The block for a CID of the toy store, as a function. -/
def blkW (c : CID) : Block :=
  if c == cidA then blockA else if c == cidB then blockB else blockU

/-- The node the toy store deserializes a CID to. -/
def nodeW (c : CID) : Value := decodeW (blkW c).data

/-!
Theorems about the embedded operations, one per claim, each followed by a
witness instantiating its hypotheses at the toy fixtures.
-/

/-- C4: for every codec id that already has a registered Format Descriptor,
registering another format for that codec id fails with an error, and the
registry entry for that codec id afterwards is identical to the entry
before the call. -/
theorem addFormat_duplicate_rejected (reg : Registry) (codec : String)
    (r : ResolverPlugin) (u : UtilPlugin) (e : FormatEntry)
    (h : lookupR reg codec = some e) :
    supportAdd reg codec r u = .error (duplicateMsg codec) ∧
    lookupR (supportAddState reg codec r u) codec = some e := by
  refine ⟨by simp [supportAdd, h], ?_⟩
  simp [supportAddState, supportAdd, h]

/-- Witness for C4: registering a second format for the already-registered
codec `fmt` fails and leaves its entry untouched. -/
theorem addFormat_duplicate_rejected_witness :
    supportAdd regW "fmt" resolverW utilW = .error (duplicateMsg "fmt") ∧
    lookupR (supportAddState regW "fmt" resolverW utilW) "fmt" = some fmtW :=
  addFormat_duplicate_rejected regW "fmt" resolverW utilW fmtW rfl

/-- C1: in every successfully pulled `resolve` step, when the step's value
is a CID it is exactly the pending CID the next step dereferences, and when
it is not a CID there is no pending CID and the next pull reports
end-of-sequence. -/
theorem resolve_hop_invariant (env : Env) (bs : BS) (st : ResolveSt)
    (step : ResolveResult) (st2 : ResolveSt)
    (h : resolveNext env bs st = .ok (some (step, st2))) :
    (∀ c2, step.value = Value.cid c2 → st2.cid = some c2) ∧
    (isCID step.value = false → st2.cid = none ∧ resolveNext env bs st2 = .ok none) := by
  obtain ⟨reg0, cid0, path0⟩ := st
  cases cid0 with
  | none => simp [resolveNext] at h
  | some c =>
    simp only [resolveNext] at h
    cases hf : getFormat env reg0 c.codec with
    | error e => rw [hf] at h; simp at h
    | ok fr =>
      obtain ⟨format, reg1⟩ := fr
      rw [hf] at h
      dsimp only at h
      cases hb : bsGet bs c with
      | error e => rw [hb] at h; simp at h
      | ok block =>
        rw [hb] at h
        dsimp only at h
        cases hr : format.resolver.resolve block.data path0 with
        | error e => rw [hr] at h; simp at h
        | ok result =>
          rw [hr] at h
          simp only [Except.ok.injEq, Option.some.injEq, Prod.mk.injEq] at h
          obtain ⟨h1, h2⟩ := h
          subst h1
          subst h2
          cases hv : normalizeLegacy env result.value <;>
            simp [isCID, resolveNext, hv]

/-- Witness for C1: the first hop of resolving `one/x` from `cidA` yields
the CID `cidB`, which is exactly the pending CID of the next step. -/
theorem resolve_hop_invariant_witness :
    resolveNext envW bsW ⟨regW, some cidA, "one/x"⟩ =
      .ok (some (⟨"x", .cid cidB⟩, ⟨regW, some cidB, "x"⟩)) ∧
    (⟨regW, some cidB, "x"⟩ : ResolveSt).cid = some cidB :=
  ⟨rfl,
   (resolve_hop_invariant envW bsW ⟨regW, some cidA, "one/x"⟩ ⟨"x", .cid cidB⟩
      ⟨regW, some cidB, "x"⟩ rfl).1 cidB rfl⟩

/-- C6: when a resolve step's plugin-produced value is a legacy link marker
(an object whose only field is `/`), the step yields that value converted
to a CID, and the next step dereferences exactly that CID. -/
theorem resolve_legacy_link_normalized (env : Env) (bs : BS) (reg : Registry)
    (c : CID) (path : String) (format : FormatEntry) (reg1 : Registry)
    (hf : getFormat env reg c.codec = .ok (format, reg1))
    (block : Block) (hb : bsGet bs c = .ok block)
    (rp : String) (inner : Value)
    (hr : format.resolver.resolve block.data path = .ok ⟨rp, .obj [("/", inner)]⟩) :
    resolveNext env bs ⟨reg, some c, path⟩ =
      .ok (some (⟨rp, .cid (env.parseCID inner)⟩,
                 ⟨reg1, some (env.parseCID inner), rp⟩)) := by
  simp [resolveNext, hf, hb, hr, normalizeLegacy]

/-- Witness for C6: resolving `leg` from `cidA` hits the legacy object
link `{/: enc}` and yields it converted to `cidB`, the next pending CID. -/
theorem resolve_legacy_link_normalized_witness :
    resolveNext envW bsW ⟨regW, some cidA, "leg"⟩ =
      .ok (some (⟨"", .cid (envW.parseCID (.str "enc"))⟩,
                 ⟨regW, some (envW.parseCID (.str "enc")), ""⟩)) :=
  resolve_legacy_link_normalized envW bsW regW cidA "leg" fmtW regW rfl blockA rfl
    "" (.str "enc") rfl

/-- C10: any resolve-step value whose own key set is exactly `/` — even
ordinary data — is classified as a link: it is replaced by the parsed CID
of its `/` field and the next step dereferences that CID. -/
theorem resolve_slash_object_is_link (env : Env) (bs : BS) (reg : Registry)
    (c : CID) (path : String) (format : FormatEntry) (reg1 : Registry)
    (hf : getFormat env reg c.codec = .ok (format, reg1))
    (block : Block) (hb : bsGet bs c = .ok block)
    (rp : String) (fields : List (String × Value))
    (hr : format.resolver.resolve block.data path = .ok ⟨rp, .obj fields⟩)
    (hkeys : fields.map Prod.fst = ["/"]) :
    ∃ v, fields = [("/", v)] ∧
      resolveNext env bs ⟨reg, some c, path⟩ =
        .ok (some (⟨rp, .cid (env.parseCID v)⟩,
                   ⟨reg1, some (env.parseCID v), rp⟩)) := by
  cases fields with
  | nil => simp at hkeys
  | cons kv rest =>
    cases rest with
    | cons kv2 rest2 => simp at hkeys
    | nil =>
      obtain ⟨k, v⟩ := kv
      have hk : k = "/" := by simpa using hkeys
      subst hk
      exact ⟨v, rfl, by simp [resolveNext, hf, hb, hr, normalizeLegacy]⟩

/-- Witness for C10: the object `{/: enc}` produced as plain data on path
`leg` is nevertheless classified as a link to the parsed CID. -/
theorem resolve_slash_object_is_link_witness :
    ∃ v, ([("/", Value.str "enc")] : List (String × Value)) = [("/", v)] ∧
      resolveNext envW bsW ⟨regW, some cidA, "leg"⟩ =
        .ok (some (⟨"", .cid (envW.parseCID v)⟩,
                   ⟨regW, some (envW.parseCID v), ""⟩)) :=
  resolve_slash_object_is_link envW bsW regW cidA "leg" fmtW regW rfl blockA rfl
    "" [("/", .str "enc")] rfl rfl

/-- Toy user options without `onlyHash`. -/
def uoW : UserOptions := { format := 5 }

/-- Toy user options with `onlyHash` set. -/
def uoH : UserOptions := { format := 5, onlyHash := some true }

/-- C3: pulling `put([n], options)` with `onlyHash = true` yields the
computed CID and performs no Block Store write: the block store component
of the state after the pull is exactly the one before. -/
theorem put_onlyHash_no_store (env : Env) (reg : Registry) (bs : BS)
    (uo : UserOptions) (n : Value) (format : FormatEntry) (reg1 : Registry) (c : CID)
    (honly : uo.onlyHash = some true)
    (hf : getFormat env reg (env.codecName uo.format) = .ok (format, reg1))
    (hcid : format.util.cid n (mkOptions uo) = .ok c) :
    putNext env uo ⟨reg, bs, [n], none⟩ =
      (⟨reg1, bs, [], some (mkOptions uo, format)⟩, .ok (some c)) := by
  have honly2 : (mkOptions uo).onlyHash = true := by simp [mkOptions, honly]
  simp [putNext, hf, hcid, honly2]

/-- Witness for C3: an `onlyHash` put of a toy node yields `cidA` and
leaves the toy block store untouched. -/
theorem put_onlyHash_no_store_witness :
    putNext envW uoH ⟨regW, bsW, [.str "hi"], none⟩ =
      (⟨regW, bsW, [], some (mkOptions uoH, fmtW)⟩, .ok (some cidA)) :=
  put_onlyHash_no_store envW regW bsW uoH (.str "hi") fmtW regW cidA rfl rfl rfl

/-- C2: for a node `n` and a registered format whose serialize/deserialize
are mutually inverse on `n`, `put([n], {format})` yields the computed CID
`c` and a subsequent `get([c])` yields a node structurally equal to `n`. -/
theorem put_get_roundtrip (env : Env) (reg : Registry) (bs : BS)
    (uo : UserOptions) (n : Value) (format : FormatEntry) (c : CID) (buf : Bytes)
    (hreg : lookupR reg (env.codecName uo.format) = some format)
    (hcid : format.util.cid n (mkOptions uo) = .ok c)
    (hser : format.util.serialize n = .ok buf)
    (hdes : format.util.deserialize buf = .ok n)
    (hcc : lookupR reg c.codec = some format)
    (honly : uo.onlyHash.getD false = false) :
    (putNext env uo ⟨reg, bs, [n], none⟩).2 = .ok (some c) ∧
    (getNext env (putNext env uo ⟨reg, bs, [n], none⟩).1.bs
        ⟨(putNext env uo ⟨reg, bs, [n], none⟩).1.reg, [c], none⟩).2 = .ok (some n) := by
  have honly2 : (mkOptions uo).onlyHash = false := by simp [mkOptions, honly]
  have hput : putNext env uo ⟨reg, bs, [n], none⟩ =
      (⟨reg, bsPut bs ⟨c, buf⟩, [], some (mkOptions uo, format)⟩, .ok (some c)) := by
    simp [putNext, getFormat, hreg, hcid, honly2, putBlock, hcc, hser]
  refine ⟨by rw [hput], ?_⟩
  rw [hput]
  have hbg : bsGet (bsPut bs ⟨c, buf⟩) c = .ok ⟨c, buf⟩ := by
    simp [bsGet, bsPut, List.find?]
  simp [getNext, bsGetMany, hbg, getShift, deserializeBlock, getFormat, hcc, hdes]

/-- Witness for C2: the toy string node round-trips through `put` and
`get` under the toy format. -/
theorem put_get_roundtrip_witness :
    (putNext envW uoW ⟨regW, bsW, [.str "hi"], none⟩).2 = .ok (some cidA) ∧
    (getNext envW (putNext envW uoW ⟨regW, bsW, [.str "hi"], none⟩).1.bs
        ⟨(putNext envW uoW ⟨regW, bsW, [.str "hi"], none⟩).1.reg, [cidA], none⟩).2 =
      .ok (some (.str "hi")) :=
  put_get_roundtrip envW regW bsW uoW (.str "hi") fmtW cidA
    (encodeW (.str "hi")) rfl rfl rfl rfl rfl rfl

/-- C5: for a codec that is neither registered nor dynamically loadable
(default loader), every operation needing it — resolve, get, put,
treeStream — fails with the unknown-codec error carrying the codec's
human-readable name; none silently skips the failure. -/
theorem unknown_codec_fails_all (env : Env) (reg : Registry) (bs : BS)
    (codec : String)
    (henv : env.loadFormat = defaultLoadFormat)
    (hmiss : lookupR reg codec = none)
    (c : CID) (hc : c.codec = codec) (path : String)
    (block : Block) (hblock : bsGet bs c = .ok block) (hbc : block.cid.codec = codec)
    (uo : UserOptions) (huo : env.codecName uo.format = codec)
    (n : Value) (rest : List Value) (fuel : Nat) :
    resolveNext env bs ⟨reg, some c, path⟩ = .error (unknownCodecMsg codec) ∧
    (getNext env bs ⟨reg, [c], none⟩).2 = .error (unknownCodecMsg codec) ∧
    (putNext env uo ⟨reg, bs, n :: rest, none⟩).2 = .error (unknownCodecMsg codec) ∧
    treeStream env bs reg (fuel + 1) c none true = .error (unknownCodecMsg codec) := by
  have hgf : getFormat env reg codec = .error (unknownCodecMsg codec) := by
    simp [getFormat, hmiss, henv, defaultLoadFormat]
  refine ⟨?_, ?_, ?_, ?_⟩
  · simp [resolveNext, hc, hgf]
  · simp [getNext, bsGetMany, hblock, getShift, deserializeBlock, hbc, hgf]
  · simp [putNext, huo, hgf]
  · simp [treeStream, bfs, childrenOf, hc, hgf]

/-- Witness for C5: the codec `unk` is unregistered and unloadable, and all
four operations fail with its unknown-codec error. -/
theorem unknown_codec_fails_all_witness :
    resolveNext envU bsW ⟨regW, some cidU, "p"⟩ = .error (unknownCodecMsg "unk") ∧
    (getNext envU bsW ⟨regW, [cidU], none⟩).2 = .error (unknownCodecMsg "unk") ∧
    (putNext envU ⟨5, none, none, none⟩ ⟨regW, bsW, [.str "a"], none⟩).2 =
      .error (unknownCodecMsg "unk") ∧
    treeStream envU bsW regW 3 cidU none true = .error (unknownCodecMsg "unk") :=
  unknown_codec_fails_all envU regW bsW "unk" rfl rfl cidU rfl "p" blockU rfl rfl
    ⟨5, none, none, none⟩ rfl (.str "a") [] 2

/-- C9: each value-yielding pull of `put` shifts the first element off the
caller-supplied nodes array (so after exhaustion it is empty — a done pull
happens only on the empty array and leaves it empty); `remove` does the
same to the caller's cids array; `get` never mutates the caller's cids
argument in any branch. -/
theorem bulk_input_consumption :
    (∀ (env : Env) (uo : UserOptions) (st stp : PutSt) (c : CID),
        putNext env uo st = (stp, .ok (some c)) → stp.nodes = st.nodes.tail) ∧
    (∀ (env : Env) (uo : UserOptions) (st stp : PutSt),
        putNext env uo st = (stp, .ok none) → st.nodes = [] ∧ stp.nodes = []) ∧
    (∀ (st stp : RemoveSt) (c : CID),
        removeNext st = (stp, .ok (some c)) → stp.cids = st.cids.tail) ∧
    (∀ (st stp : RemoveSt),
        removeNext st = (stp, .ok none) → st.cids = [] ∧ stp.cids = []) ∧
    (∀ (env : Env) (bs : BS) (st : GetSt), ((getNext env bs st).1).cids = st.cids) := by
  refine ⟨?_, ?_, ?_, ?_, ?_⟩
  · intro env uo st stp c h
    obtain ⟨reg0, bs0, nodes0, opts0⟩ := st
    cases nodes0 with
    | nil => simp [putNext] at h
    | cons n rest =>
      simp only [putNext] at h
      split at h
      · simp at h
      · split at h
        · simp at h
        · split at h
          · simp only [Prod.mk.injEq] at h
            rw [← h.1]
            rfl
          · split at h
            · simp at h
            · simp only [Prod.mk.injEq] at h
              rw [← h.1]
              rfl
  · intro env uo st stp h
    obtain ⟨reg0, bs0, nodes0, opts0⟩ := st
    cases nodes0 with
    | nil =>
      simp only [putNext, Prod.mk.injEq] at h
      exact ⟨rfl, by rw [← h.1]⟩
    | cons n rest =>
      simp only [putNext] at h
      split at h
      · simp at h
      · split at h
        · simp at h
        · split at h
          · simp at h
          · split at h
            · simp at h
            · simp at h
  · intro st stp c h
    obtain ⟨bs0, cids0⟩ := st
    cases cids0 with
    | nil => simp [removeNext] at h
    | cons c0 rest =>
      simp only [removeNext, bsDelete, Prod.mk.injEq] at h
      rw [← h.1]
      rfl
  · intro st stp h
    obtain ⟨bs0, cids0⟩ := st
    cases cids0 with
    | nil =>
      simp only [removeNext, Prod.mk.injEq] at h
      exact ⟨rfl, by rw [← h.1]⟩
    | cons c0 rest => simp [removeNext, bsDelete] at h
  · intro env bs st
    obtain ⟨reg0, cids0, blocks0⟩ := st
    simp only [getNext]
    split
    · rfl
    · split
      · split
        · rfl
        · rfl
        · simp only [getShift]
          split <;> rfl
      · rfl
      · simp only [getShift]
        split <;> rfl

/-- Witness for C9: a two-node put shifts its first node, a two-CID remove
shifts its first CID, and a pull of get leaves the caller's cids intact. -/
theorem bulk_input_consumption_witness :
    (putNext envW uoW ⟨regW, bsW, [.str "a", .str "b"], none⟩).1.nodes = [.str "b"] ∧
    (removeNext ⟨bsW, [cidA, cidB]⟩).1.cids = [cidB] ∧
    (getNext envW bsW ⟨regW, [cidA, cidB], none⟩).1.cids = [cidA, cidB] :=
  ⟨bulk_input_consumption.1 envW uoW ⟨regW, bsW, [.str "a", .str "b"], none⟩ _ cidA rfl,
   (bulk_input_consumption.2.2.1 ⟨bsW, [cidA, cidB]⟩ _ cidA rfl),
   bulk_input_consumption.2.2.2.2 envW bsW ⟨regW, [cidA, cidB], none⟩⟩

/-- C8 (amended): for every non-empty filter path `x` (an empty one is
falsy for the source's `if (path)` check and disables filtering), the
output of `treeStream(cid, x, {recursive:true})`, with `x/` re-prepended to
each entry, equals — in order — the entries of
`treeStream(cid, {recursive:true})` that start with `x` (as a plain string
prefix, not necessarily followed by `/`) and whose remainder after dropping
`|x| + 1` characters is non-empty, each replaced by `x/` followed by that
remainder. -/
theorem treeStream_path_filter_amended (env : Env) (bs : BS) (reg : Registry)
    (fuel : Nat) (c : CID) (x : String) (hx : ¬(x = "")) :
    Except.map (List.map (fun s => x ++ "/" ++ s))
        (treeStream env bs reg fuel c (some x) true) =
      Except.map (List.filterMap (fun e =>
          if jsStartsWith e x then
            (if jsSlice e (x.length + 1) == "" then none
             else some (x ++ "/" ++ jsSlice e (x.length + 1)))
          else none))
        (treeStream env bs reg fuel c none true) := by
  have hx2 : ¬((x == "") = true) := by simpa using hx
  unfold treeStream
  cases hb : bfs env bs fuel reg [.node none (some c)] with
  | error e => rfl
  | ok els =>
    simp only [if_true]
    rw [if_neg hx2]
    show Except.ok ((List.filterMap (fun el =>
            if jsStartsWith el x then
              (if jsSlice el (x.length + 1) == "" then none
               else some (jsSlice el (x.length + 1)))
            else none) (els.filterMap elToPath)).map (fun s => x ++ "/" ++ s)) =
        Except.ok (List.filterMap (fun e =>
            if jsStartsWith e x then
              (if jsSlice e (x.length + 1) == "" then none
               else some (x ++ "/" ++ jsSlice e (x.length + 1)))
            else none) (els.filterMap elToPath))
    congr 1
    rw [List.map_filterMap]
    congr 1
    funext el
    by_cases h1 : jsStartsWith el x <;> by_cases h2 : jsSlice el (x.length + 1) == "" <;>
      simp [h1, h2]

/-- Witness for C8 (amended): the equation at the non-empty filter path
`x` on the toy fixtures. -/
theorem treeStream_path_filter_amended_witness :
    Except.map (List.map (fun s => "x" ++ "/" ++ s))
        (treeStream envW bsW regW 2 cidA (some "x") true) =
      Except.map (List.filterMap (fun e =>
          if jsStartsWith e "x" then
            (if jsSlice e ("x".length + 1) == "" then none
             else some ("x" ++ "/" ++ jsSlice e ("x".length + 1)))
          else none))
        (treeStream envW bsW regW 2 cidA none true) :=
  treeStream_path_filter_amended envW bsW regW 2 cidA "x" (by decide)

/-- Counterexample for C8 as stated: on the toy store the full recursive
stream is `[xyz]`; filtering with path `x` emits `z`, whose `x/`-prepended
form `x/z` is not the (empty) sublist of full entries starting with `x/`. -/
theorem treeStream_path_filter_cex :
    ¬ (Except.map (List.map (fun s => "x/" ++ s))
          (treeStream envW bsW regW 2 cidA (some "x") true) =
       Except.map (List.filter (fun e => jsStartsWith e "x/"))
          (treeStream envW bsW regW 2 cidA none true)) := by
  intro h
  have h1 : Except.map (List.map (fun s => "x/" ++ s))
      (treeStream envW bsW regW 2 cidA (some "x") true) =
      (Except.ok ["x/z"] : Except Err (List String)) := rfl
  have h2 : Except.map (List.filter (fun e => jsStartsWith e "x/"))
      (treeStream envW bsW regW 2 cidA none true) =
      (Except.ok [] : Except Err (List String)) := rfl
  rw [h1, h2] at h
  exact absurd h (by simp)

/-- Lookup after a registry insert: the inserted codec shadows, other keys
are unchanged. -/
theorem lookupR_insert (codec k : String) (e : FormatEntry) (reg : Registry) :
    lookupR (insertR reg codec e) k =
      if codec == k then some e else lookupR reg k := by
  by_cases h : codec == k <;> simp [lookupR, insertR, List.find?_cons, h]

/-- A `_getFormat` call only ever extends the registry with a codec that
was previously absent, so every present entry is preserved. -/
theorem getFormat_preserves (env : Env) (reg : Registry) (codec k : String)
    (f2 : FormatEntry) (reg2 : Registry) (v : FormatEntry)
    (h : getFormat env reg codec = .ok (f2, reg2))
    (hk : lookupR reg k = some v) : lookupR reg2 k = some v := by
  unfold getFormat at h
  cases hl : lookupR reg codec with
  | some f =>
    rw [hl] at h
    simp only [Except.ok.injEq, Prod.mk.injEq] at h
    rw [← h.2]
    exact hk
  | none =>
    rw [hl] at h
    cases he : env.loadFormat codec with
    | error e => rw [he] at h; simp at h
    | ok f =>
      rw [he] at h
      simp only [Except.ok.injEq, Prod.mk.injEq] at h
      rw [← h.2, lookupR_insert]
      by_cases hck : codec = k
      · subst hck
        rw [hl] at hk
        cases hk
      · simp [hck, hk]

/-- `_put` acknowledges with the CID it was given and only extends the
registry through its own `_getFormat` call. -/
theorem putBlock_ok (env : Env) (reg : Registry) (bs : BS) (c : CID) (n : Value)
    (c2 : CID) (reg2 : Registry) (bs2 : BS)
    (h : putBlock env reg bs c n = .ok (c2, reg2, bs2)) :
    c2 = c ∧ ∃ fm, getFormat env reg c.codec = .ok (fm, reg2) := by
  unfold putBlock at h
  cases hf : getFormat env reg c.codec with
  | error e => rw [hf] at h; simp at h
  | ok fr =>
    obtain ⟨fm, r1⟩ := fr
    rw [hf] at h
    dsimp only at h
    cases hs : fm.util.serialize n with
    | error e => rw [hs] at h; simp at h
    | ok buf =>
      rw [hs] at h
      simp only [Except.ok.injEq, Prod.mk.injEq] at h
      exact ⟨h.1.symm, fm, by rw [h.2.1]⟩

/-- The first pull of `put` on a non-empty node list, with the format
already resolvable and the node's CID computable. -/
theorem putNext_cons (env : Env) (uo : UserOptions) (reg0 : Registry) (bs0 : BS)
    (n : Value) (rest : List Value) (opts0 : Option (PutOptions × FormatEntry))
    (format : FormatEntry)
    (hr : lookupR reg0 (env.codecName uo.format) = some format)
    (ho : opts0 = none ∨ opts0 = some (mkOptions uo, format))
    (c : CID) (hc : format.util.cid n (mkOptions uo) = .ok c) :
    putNext env uo ⟨reg0, bs0, n :: rest, opts0⟩ =
      if (mkOptions uo).onlyHash then
        (⟨reg0, bs0, rest, some (mkOptions uo, format)⟩, .ok (some c))
      else
        match putBlock env reg0 bs0 c n with
        | .error e => (⟨reg0, bs0, rest, some (mkOptions uo, format)⟩, .error e)
        | .ok (c2, reg2, bs2) =>
          (⟨reg2, bs2, rest, some (mkOptions uo, format)⟩, .ok (some c2)) := by
  rcases ho with h0 | h0 <;> subst h0 <;>
    simp [putNext, getFormat, hr, hc]

/-- Running the full `put` sequence yields, in order, exactly the computed
CID of each input node. -/
theorem runPut_mirrors (env : Env) (uo : UserOptions) (format : FormatEntry)
    (f : Value → CID) :
    ∀ (nodes : List Value) (st : PutSt), st.nodes = nodes →
      lookupR st.reg (env.codecName uo.format) = some format →
      (st.opts = none ∨ st.opts = some (mkOptions uo, format)) →
      (∀ n ∈ nodes, format.util.cid n (mkOptions uo) = .ok (f n)) →
      ∀ out, (runPutAux env uo nodes.length st).2 = .ok out →
        out = nodes.map f := by
  intro nodes
  induction nodes with
  | nil =>
    intro st hn hr ho hc out hout
    simp only [List.length_nil, runPutAux] at hout
    have h2 : ([] : List CID) = out := by simpa using hout
    simp [← h2]
  | cons n rest ih =>
    intro st hn hr ho hc out hout
    obtain ⟨reg0, bs0, nodes0, opts0⟩ := st
    dsimp only at hn hr ho
    subst hn
    have hstep := putNext_cons env uo reg0 bs0 n rest opts0 format hr ho (f n)
      (hc n (by simp))
    simp only [List.length_cons, runPutAux] at hout
    rw [hstep] at hout
    by_cases hOH : (mkOptions uo).onlyHash
    · rw [if_pos hOH] at hout
      dsimp only at hout
      cases hrec : runPutAux env uo rest.length
          ⟨reg0, bs0, rest, some (mkOptions uo, format)⟩ with
      | mk st2 r =>
        rw [hrec] at hout
        cases r with
        | error e => simp at hout
        | ok cs =>
          dsimp only at hout
          have hcs : cs = rest.map f := by
            refine ih ⟨reg0, bs0, rest, some (mkOptions uo, format)⟩ rfl hr
              (Or.inr rfl) (fun a ha => hc a (by simp [ha])) cs ?_
            rw [hrec]
          rw [List.map_cons, ← hcs]
          exact (Except.ok.inj hout).symm
    · rw [if_neg hOH] at hout
      cases hpb : putBlock env reg0 bs0 (f n) n with
      | error e =>
        rw [hpb] at hout
        simp at hout
      | ok tri =>
        obtain ⟨c2, reg2, bs2⟩ := tri
        rw [hpb] at hout
        dsimp only at hout
        obtain ⟨hc2, fm, hgf⟩ := putBlock_ok env reg0 bs0 (f n) n c2 reg2 bs2 hpb
        subst hc2
        have hr2 : lookupR reg2 (env.codecName uo.format) = some format :=
          getFormat_preserves env reg0 (f n).codec (env.codecName uo.format)
            fm reg2 format hgf hr
        cases hrec : runPutAux env uo rest.length
            ⟨reg2, bs2, rest, some (mkOptions uo, format)⟩ with
        | mk st2 r =>
          rw [hrec] at hout
          cases r with
          | error e => simp at hout
          | ok cs =>
            dsimp only at hout
            have hcs : cs = rest.map f := by
              refine ih ⟨reg2, bs2, rest, some (mkOptions uo, format)⟩ rfl hr2
                (Or.inr rfl) (fun a ha => hc a (by simp [ha])) cs ?_
              rw [hrec]
            rw [List.map_cons, ← hcs]
            exact (Except.ok.inj hout).symm

/-- A batched fetch of individually present CIDs returns their blocks in
request order. -/
theorem bsGetMany_map (bs : BS) (blk : CID → Block) :
    ∀ cids : List CID, (∀ c ∈ cids, bsGet bs c = .ok (blk c)) →
      bsGetMany bs cids = .ok (cids.map blk) := by
  intro cids
  induction cids with
  | nil => intro _; simp [bsGetMany]
  | cons c cs ih =>
    intro h
    simp [bsGetMany, h c (by simp), ih (fun a ha => h a (by simp [ha]))]

/-- Consuming the internal blocks array of `get` deserializes the blocks in
order. -/
theorem runGet_blocks (env : Env) (bs : BS) (reg : Registry) (cids0 : List CID)
    (h0 : cids0.isEmpty = false) (blk : CID → Block) (fm : CID → FormatEntry)
    (g : CID → Value) :
    ∀ cs : List CID,
      (∀ c ∈ cs, lookupR reg (blk c).cid.codec = some (fm c)) →
      (∀ c ∈ cs, (fm c).util.deserialize (blk c).data = .ok (g c)) →
      (runGetAux env bs cs.length ⟨reg, cids0, some (List.map blk cs)⟩).2 =
        .ok (List.map g cs) := by
  intro cs
  induction cs with
  | nil => intro _ _; simp [runGetAux]
  | cons c cs ih =>
    intro h1 h2
    simp only [List.length_cons, List.map_cons, runGetAux]
    have hstep : getNext env bs ⟨reg, cids0, some (blk c :: List.map blk cs)⟩ =
        (⟨reg, cids0, some (List.map blk cs)⟩, .ok (some (g c))) := by
      simp [getNext, h0, getShift, deserializeBlock, getFormat,
        h1 c (by simp), h2 c (by simp)]
    rw [hstep]
    dsimp only
    have hrest := ih (fun a ha => h1 a (by simp [ha])) (fun a ha => h2 a (by simp [ha]))
    cases hrec : runGetAux env bs cs.length ⟨reg, cids0, some (List.map blk cs)⟩ with
    | mk st2 r =>
      rw [hrec] at hrest
      dsimp only at hrest
      subst hrest
      rfl

/-- Running the full `get` sequence yields, in order, the deserialized
node of each requested CID. -/
theorem runGet_mirrors (env : Env) (bs : BS) (reg : Registry)
    (cids : List CID) (blk : CID → Block) (fm : CID → FormatEntry) (g : CID → Value)
    (hG1 : ∀ c ∈ cids, bsGet bs c = .ok (blk c))
    (hG2 : ∀ c ∈ cids, lookupR reg (blk c).cid.codec = some (fm c))
    (hG3 : ∀ c ∈ cids, (fm c).util.deserialize (blk c).data = .ok (g c)) :
    (runGetAux env bs cids.length ⟨reg, cids, none⟩).2 = .ok (List.map g cids) := by
  cases cids with
  | nil => simp [runGetAux]
  | cons c cs =>
    simp only [List.length_cons, List.map_cons, runGetAux]
    have hmany : bsGetMany bs (c :: cs) = .ok (blk c :: List.map blk cs) := by
      simpa using bsGetMany_map bs blk (c :: cs) hG1
    have hstep : getNext env bs ⟨reg, c :: cs, none⟩ =
        (⟨reg, c :: cs, some (List.map blk cs)⟩, .ok (some (g c))) := by
      simp [getNext, hmany, getShift, deserializeBlock, getFormat,
        hG2 c (by simp), hG3 c (by simp)]
    rw [hstep]
    dsimp only
    have hrest := runGet_blocks env bs reg (c :: cs) (by simp) blk fm g cs
      (fun a ha => hG2 a (by simp [ha])) (fun a ha => hG3 a (by simp [ha]))
    cases hrec : runGetAux env bs cs.length ⟨reg, c :: cs, some (List.map blk cs)⟩ with
    | mk st2 r =>
      rw [hrec] at hrest
      dsimp only at hrest
      subst hrest
      rfl

/-- Running the full `remove` sequence yields exactly the input CIDs in
order (the in-memory delete acknowledges each). -/
theorem runRemove_yields : ∀ (cids : List CID) (bs : BS),
    (runRemoveAux cids.length ⟨bs, cids⟩).2 = .ok cids := by
  intro cids
  induction cids with
  | nil => intro bs; simp [runRemoveAux]
  | cons c cs ih =>
    intro bs
    simp only [List.length_cons, runRemoveAux, removeNext, bsDelete]
    cases hrec : runRemoveAux cs.length ⟨List.filter (fun b => !(b.cid == c)) bs, cs⟩ with
    | mk st2 r =>
      have hrest := ih (List.filter (fun b => !(b.cid == c)) bs)
      rw [hrec] at hrest
      dsimp only at hrest
      subst hrest
      rfl

/-- C7: the outputs of `get`, `put` and `remove` mirror the caller-supplied
input order element for element: the k-th yielded CID of `put` is the
computed CID of the k-th node, the k-th yielded node of `get` is the
deserialization of the block of the k-th requested CID, and `remove`
yields exactly its input CIDs in order. -/
theorem bulk_order_mirrors_input (env : Env) (uo : UserOptions)
    (stP : PutSt) (format : FormatEntry) (f : Value → CID)
    (hP1 : lookupR stP.reg (env.codecName uo.format) = some format)
    (hP2 : stP.opts = none ∨ stP.opts = some (mkOptions uo, format))
    (hP3 : ∀ n ∈ stP.nodes, format.util.cid n (mkOptions uo) = .ok (f n))
    (outP : List CID)
    (hPrun : (runPutAux env uo stP.nodes.length stP).2 = .ok outP)
    (bs : BS) (reg : Registry) (cids : List CID)
    (blk : CID → Block) (fm : CID → FormatEntry) (g : CID → Value)
    (hG1 : ∀ c ∈ cids, bsGet bs c = .ok (blk c))
    (hG2 : ∀ c ∈ cids, lookupR reg (blk c).cid.codec = some (fm c))
    (hG3 : ∀ c ∈ cids, (fm c).util.deserialize (blk c).data = .ok (g c))
    (stR : RemoveSt) :
    outP = stP.nodes.map f ∧
    (runGetAux env bs cids.length ⟨reg, cids, none⟩).2 = .ok (List.map g cids) ∧
    (runRemoveAux stR.cids.length stR).2 = .ok stR.cids := by
  refine ⟨runPut_mirrors env uo format f stP.nodes stP rfl hP1 hP2 hP3 outP hPrun,
    runGet_mirrors env bs reg cids blk fm g hG1 hG2 hG3, ?_⟩
  obtain ⟨bs0, cids0⟩ := stR
  exact runRemove_yields cids0 bs0

/-- Witness for C7: a two-node put, a two-CID get and a two-CID remove on
the toy fixtures, each mirroring its input order. -/
theorem bulk_order_mirrors_input_witness :
    ([cidA, cidA] : List CID) = [Value.str "a", Value.str "b"].map (fun _ => cidA) ∧
    (runGetAux envW bsW 2 ⟨regW, [cidA, cidB], none⟩).2 =
      .ok (List.map nodeW [cidA, cidB]) ∧
    (runRemoveAux 2 ⟨bsW, [cidA, cidB]⟩).2 = .ok [cidA, cidB] :=
  bulk_order_mirrors_input envW uoW ⟨regW, bsW, [.str "a", .str "b"], none⟩ fmtW
    (fun _ => cidA) rfl (Or.inl rfl) (fun _ _ => rfl) [cidA, cidA] rfl
    bsW regW [cidA, cidB] blkW (fun _ => fmtW) nodeW
    (fun c hc => by simp at hc; rcases hc with rfl | rfl <;> rfl)
    (fun c hc => by simp at hc; rcases hc with rfl | rfl <;> rfl)
    (fun c hc => by simp at hc; rcases hc with rfl | rfl <;> rfl)
    ⟨bsW, [cidA, cidB]⟩
